import Mathlib

/-!
Verification of the snake reinforcement-learning core (headless training
variant).  The definitions below are a shallow embedding of the Python
source: `train_headless.py` (game environment, state encoder, epsilon-greedy
policy, replay buffer, training loop) and `model.py` (QTrainer.train_step
target construction).  Randomness is made explicit: random draws become
parameters (lists of candidate draws, drawn integers, chosen indices).
-/

namespace SnakeRL

/-- Type `Point` from snake_game.py: an immutable (x, y) integer pair. -/
structure Point where
  x : ℤ
  y : ℤ
deriving DecidableEq, Repr

/-- Enumeration `Direction` from snake_game.py. -/
inductive Direction where
  | RIGHT
  | LEFT
  | UP
  | DOWN
deriving DecidableEq, Repr

/-- Constant `BLOCK_SIZE = 20` from snake_game.py. -/
def BLOCK_SIZE : ℤ := 20

/-- State of the headless game object created by
`HeadlessAgent.create_headless_game` in train_headless.py: direction, head,
snake body (head first), score, food, frame counter. -/
structure GameState where
  direction : Direction
  head : Point
  snake : List Point
  score : ℕ
  food : Point
  frame_iteration : ℕ
deriving DecidableEq, Repr

/-- Wall-collision test of `HeadlessGame.is_collision`:
`pt.x > 640-BLOCK_SIZE or pt.x < 0 or pt.y > 480-BLOCK_SIZE or pt.y < 0`. -/
def outOfBounds (pt : Point) : Bool :=
  pt.x > 640 - BLOCK_SIZE || pt.x < 0 || pt.y > 480 - BLOCK_SIZE || pt.y < 0

/-- Method `HeadlessGame.is_collision(pt)`: wall collision, or membership in
`snake[1:]` (every segment except the head slot). -/
def isCollision (g : GameState) (pt : Point) : Bool :=
  outOfBounds pt || g.snake.tail.contains pt

/-- List `clock_wise = [RIGHT, DOWN, LEFT, UP]` in `HeadlessGame._move`. -/
def clockWise : List Direction :=
  [Direction.RIGHT, Direction.DOWN, Direction.LEFT, Direction.UP]

/-- Value of `clock_wise.index(self.direction)` in `HeadlessGame._move`. -/
def clockIndex (d : Direction) : ℕ :=
  match d with
  | Direction.RIGHT => 0
  | Direction.DOWN => 1
  | Direction.LEFT => 2
  | Direction.UP => 3

/-- Direction decoding of `HeadlessGame._move`: `[1,0,0]` keeps the index,
`[0,1,0]` rotates by +1 mod 4, anything else rotates by -1 mod 4
(Python `(idx - 1) % 4`, which on indices 0..3 equals `(idx + 3) % 4`). -/
def newDirection (d : Direction) (action : List ℕ) : Direction :=
  let idx := clockIndex d
  if action = [1, 0, 0] then clockWise.getD idx Direction.RIGHT
  else if action = [0, 1, 0] then clockWise.getD ((idx + 1) % 4) Direction.RIGHT
  else clockWise.getD ((idx + 3) % 4) Direction.RIGHT

/-- Head displacement by one block in a direction (second half of
`HeadlessGame._move`). -/
def movePoint (p : Point) (d : Direction) : Point :=
  match d with
  | Direction.RIGHT => ⟨p.x + BLOCK_SIZE, p.y⟩
  | Direction.LEFT => ⟨p.x - BLOCK_SIZE, p.y⟩
  | Direction.DOWN => ⟨p.x, p.y + BLOCK_SIZE⟩
  | Direction.UP => ⟨p.x, p.y - BLOCK_SIZE⟩

/-- Method `HeadlessGame._move(action)`: update direction from the relative action,
then move the head one block. -/
def move (g : GameState) (action : List ℕ) : GameState :=
  let d := newDirection g.direction action
  { g with direction := d, head := movePoint g.head d }

/-- Method `HeadlessGame._place_food`: each Python call draws
`x = randint(0,(640-20)//20)*20`, `y = randint(0,(480-20)//20)*20` and
recurses while the point lies on the snake.  The random draws are the
explicit list argument (pairs of randint outcomes); `none` models the
recursion never finding a free cell within the supplied draws. -/
def placeFood (snake : List Point) : List (ℤ × ℤ) → Option Point
  | [] => none
  | d :: rest =>
      let f : Point := ⟨d.1 * BLOCK_SIZE, d.2 * BLOCK_SIZE⟩
      if snake.contains f then placeFood snake rest else some f

/-- Result triple of `HeadlessGame.play_step_headless`: (reward, done, score). -/
structure StepResult where
  reward : ℤ
  done : Bool
  score : ℕ
deriving DecidableEq, Repr

/-- First half of `play_step_headless`: increment `frame_iteration`, run
`_move(action)`, insert the new head at the front of the snake. -/
def stepInsert (g : GameState) (action : List ℕ) : GameState :=
  let g1 := move { g with frame_iteration := g.frame_iteration + 1 } action
  { g1 with snake := g1.head :: g1.snake }

/-- Method `HeadlessGame.play_step_headless(action)`: after the move/insert, a
collision or the stall guard `frame_iteration > 100*len(snake)` returns
`(-1, True, score)`; landing on food increments the score, re-places the
food and returns `(10, False, score)` without popping; otherwise the tail
is popped and the step returns `(0, False, score)`.  `draws` feeds
`_place_food`; `none` only when food placement exhausts the draws. -/
def playStepHeadless (g : GameState) (action : List ℕ) (draws : List (ℤ × ℤ)) :
    Option (StepResult × GameState) :=
  let g2 := stepInsert g action
  if isCollision g2 g2.head || decide (g2.frame_iteration > 100 * g2.snake.length) then
    some (⟨-1, true, g2.score⟩, g2)
  else if g2.head = g2.food then
    match placeFood g2.snake draws with
    | none => none
    | some f =>
        some (⟨10, false, g2.score + 1⟩, { g2 with score := g2.score + 1, food := f })
  else
    some (⟨0, false, g2.score⟩, { g2 with snake := g2.snake.dropLast })

/-- The initial headless game of `HeadlessGame.__init__`: direction RIGHT,
head (320, 240), a three-segment snake, score 0, frame counter 0.  The food
placed by the constructor's `_place_food` call is the parameter. -/
def initialGame (food : Point) : GameState :=
  { direction := Direction.RIGHT
    head := ⟨320, 240⟩
    snake := [⟨320, 240⟩, ⟨300, 240⟩, ⟨280, 240⟩]
    score := 0
    food := food
    frame_iteration := 0 }

/-- Python truthiness of a Bool written into an int numpy array
(`np.array(state, dtype=int)` in `get_state`). -/
def b2i (b : Bool) : ℕ := if b then 1 else 0

/-- Method `HeadlessAgent.get_state(game)`: the 11-entry integer state vector.
Indices 0-2 are the three danger disjunctions exactly as written in the
source (including the asymmetric gating of index 1 on `dir_u`/`dir_d`
only), 3-6 the direction flags, 7-10 the food-relative flags (which use
`game.head`, while the danger probes use `game.snake[0]`). -/
def getState (g : GameState) : List ℕ :=
  let head := g.snake.headD g.head
  let point_l : Point := ⟨head.x - BLOCK_SIZE, head.y⟩
  let point_r : Point := ⟨head.x + BLOCK_SIZE, head.y⟩
  let point_u : Point := ⟨head.x, head.y - BLOCK_SIZE⟩
  let point_d : Point := ⟨head.x, head.y + BLOCK_SIZE⟩
  let dir_l := g.direction = Direction.LEFT
  let dir_r := g.direction = Direction.RIGHT
  let dir_u := g.direction = Direction.UP
  let dir_d := g.direction = Direction.DOWN
  [ b2i ((dir_u && isCollision g point_u) || (dir_d && isCollision g point_d) ||
        (dir_l && isCollision g point_l) || (dir_r && isCollision g point_r)),
    b2i ((dir_u && isCollision g point_r) || (dir_d && isCollision g point_l) ||
        (dir_u && isCollision g point_u) || (dir_d && isCollision g point_d)),
    b2i ((dir_u && isCollision g point_r) || (dir_d && isCollision g point_l) ||
        (dir_r && isCollision g point_u) || (dir_l && isCollision g point_d)),
    b2i dir_l, b2i dir_r, b2i dir_u, b2i dir_d,
    b2i (g.food.x < g.head.x), b2i (g.food.x > g.head.x),
    b2i (g.food.y < g.head.y), b2i (g.food.y > g.head.y) ]

/-- Maximum of a list under a linear order (value of `torch.max` /
`max(...)` on a non-empty vector; the default on `[]` is the head default,
never reached in use). -/
def listMax {α : Type} [LinearOrder α] (dflt : α) (l : List α) : α :=
  l.foldr max dflt

/-- Index of the first occurrence of the maximum (`torch.argmax`, which
documents that the index of the first maximal value is returned). -/
def argmaxList {α : Type} [LinearOrder α] (dflt : α) (l : List α) : ℕ :=
  l.findIdx (fun x => decide (x = listMax dflt l))

/-- Assignment `final_move = [0,0,0]; final_move[move] = 1` in `get_action`. -/
def oneHot3 (m : ℕ) : List ℕ :=
  [0, 0, 0].set m 1

/-- The possible outcomes of Python `random.randint(0, 200)` in
`HeadlessAgent.get_action`: both endpoints are included. -/
def drawRange : Finset ℕ := Finset.Icc 0 200

/-- The draw set as the spec words it: a uniform integer in the half-open
range [0, 200).  Stated from the spec only, for comparison with
`drawRange` (which embeds the Python `random.randint(0, 200)` call). -/
def specDrawRange : Finset ℕ := Finset.range 200

/-- The possible outcomes of `random.randint(0, 2)` choosing the random
move in `get_action`. -/
def moveRange : Finset ℕ := Finset.Icc 0 2

/-- Method `HeadlessAgent.get_action(state)`, with the randomness explicit:
`r` is the outcome of `random.randint(0, 200)` and `mv` of
`random.randint(0, 2)`.  The forward pass of the approximator is the
parameter `Q`.  Returns the pair (epsilon set by the call, final_move):
epsilon is `max(5, 80 - n_game)`; below epsilon the move is the random
one-hot, otherwise the one-hot at the argmax of `Q state`. -/
def getAction (Q : List ℕ → List ℚ) (nGame : ℕ) (state : List ℕ)
    (r : ℕ) (mv : ℕ) : ℤ × List ℕ :=
  let epsilon : ℤ := max 5 (80 - (nGame : ℤ))
  if (r : ℤ) < epsilon then (epsilon, oneHot3 mv)
  else (epsilon, oneHot3 (argmaxList 0 (Q state)))

/-- Value `Q_new` of `QTrainer.train_step`: `reward[idx]` when `done[idx]`, else
`reward[idx] + gamma * torch.max(model(next_state[idx]))`. -/
def qNew (Q : List ℕ → List ℚ) (gamma : ℚ) (reward : ℚ)
    (nextState : List ℕ) (done : Bool) : ℚ :=
  if done then reward else reward + gamma * listMax 0 (Q nextState)

/-- The target tensor built by the loop in `QTrainer.train_step`:
`target = pred.clone()`, then for each row index
`target[idx][torch.argmax(action).item()] = Q_new`.  Note that the written
column is `torch.argmax(action)` of the WHOLE action tensor — the index of
the first maximal entry of the row-major flattening of the batch — the
same for every row, not `action[idx]`'s own index.  The loop writes row
`idx` once, so it equals a map over row indices. -/
def trainStepTargets (Q : List ℕ → List ℚ) (gamma : ℚ)
    (states actions : List (List ℕ)) (rewards : List ℚ)
    (nextStates : List (List ℕ)) (dones : List Bool) : List (List ℚ) :=
  let pred := states.map Q
  let k := argmaxList 0 actions.flatten
  pred.mapIdx (fun idx row =>
    row.set k (qNew Q gamma (rewards.getD idx 0) (nextStates.getD idx []) (dones.getD idx false)))

/-- Python `deque(maxlen=C)` append used by `HeadlessAgent.remember`: append
on the right; once the length would exceed the capacity, the leftmost
(oldest) element is discarded. -/
def pushDeque {α : Type} (C : ℕ) (buf : List α) (x : α) : List α :=
  let b := buf ++ [x]
  b.drop (b.length - C)

/-- A sequence of `remember` calls starting from the empty deque. -/
def pushAll {α : Type} (C : ℕ) (xs : List α) : List α :=
  xs.foldl (pushDeque C) []

/-- Method `HeadlessAgent.train_long_memory` mini-sample selection: when the
memory holds more than `batchSize` items, `random.sample` picks
`batchSize` distinct positions (the explicit `pick` list); otherwise the
whole memory is used as-is. -/
def trainLongSample {α : Type} (batchSize : ℕ) (mem : List α) (pick : List ℕ) : List α :=
  if mem.length > batchSize then pick.filterMap (fun i => mem[i]?) else mem

/-- Counters of the `train_ultra_fast` loop: `game_counter` and
`agent.n_game`, plus an observer counting completed episodes (the
iterations whose step returned done=True, where the source resets the game
and runs the per-game bookkeeping). -/
structure LoopState where
  nGame : ℕ
  gameCounter : ℕ
  completedEpisodes : ℕ
deriving DecidableEq, Repr

/-- One iteration of the `while True` body of `train_ultra_fast`, as far as
the counters go: `game_counter += 1` and `agent.n_game += 1` run
unconditionally at the top of the body, before the step; the completed
episode count grows only on `done`. -/
def loopIter (s : LoopState) (done : Bool) : LoopState :=
  { nGame := s.nGame + 1
    gameCounter := s.gameCounter + 1
    completedEpisodes := if done then s.completedEpisodes + 1 else s.completedEpisodes }

/-- Running the loop body over a list of step outcomes (the done flags the
environment returned, in order). -/
def loopRun (s : LoopState) (dones : List Bool) : LoopState :=
  dones.foldl loopIter s

end SnakeRL

namespace SnakeRL

/-- Claim C1: in `QTrainer.train_step` the target row of every transition is
claimed to be overwritten at its own action's one-hot index.  The code
instead writes every row at `torch.argmax(action)` of the whole batch.  At
a concrete two-transition batch with actions `[1,0,0]` and `[0,1,0]`, both
target rows are overwritten at column 0 (row 0's action index), although
transition 1's own action index is 1 (its row keeps the prediction value 0
at column 1 and receives its target value 2 at column 0). -/
theorem claim_C1 :
    trainStepTargets (fun _ => [0, 0, 0]) (9 / 10)
        [List.replicate 11 0, List.replicate 11 0] [[1, 0, 0], [0, 1, 0]]
        [1, 2] [List.replicate 11 0, List.replicate 11 0] [true, true]
      = [[1, 0, 0], [2, 0, 0]] ∧
    argmaxList 0 ([0, 1, 0] : List ℕ) = 1 ∧
    argmaxList 0 ([[1, 0, 0], [0, 1, 0]] : List (List ℕ)).flatten = 0 := by
  refine ⟨?_, by decide, by decide⟩
  decide

/-- Claim C2: the episode counter `agent.n_game` supplied to the policy is
claimed to increment once per completed episode.  In `train_ultra_fast`
the increment runs at the top of every loop iteration (every step): after
two non-terminal steps (no completed episode) the counter is already 2,
and in general it equals the number of steps, not of completed games. -/
theorem claim_C2 :
    loopRun ⟨0, 0, 0⟩ [false, false] = ⟨2, 2, 0⟩ ∧
    ∀ (s : LoopState) (dones : List Bool),
      (loopRun s dones).nGame = s.nGame + dones.length := by
  refine ⟨by decide, ?_⟩
  intro s dones
  induction dones generalizing s with
  | nil => simp [loopRun]
  | cons d rest ih =>
      simp only [loopRun, List.foldl_cons] at *
      rw [ih]
      simp [loopIter]
      omega

end SnakeRL

namespace SnakeRL

/-- Claim C4: from the initial headless game (snake
[(320,240),(300,240),(280,240)], direction RIGHT), the relative action
[0,1,0] decodes through the clockwise list with index rotation +1 to
absolute DOWN, and the step gives new head (320,260), no collision,
reward 0, done False, the tail popped, and a snake of length 3. -/
theorem claim_C4 (food : Point) (draws : List (ℤ × ℤ))
    (h : food ≠ ⟨320, 260⟩) :
    newDirection Direction.RIGHT [0, 1, 0] = Direction.DOWN ∧
    clockWise.getD ((clockIndex Direction.RIGHT + 1) % 4) Direction.RIGHT = Direction.DOWN ∧
    isCollision (stepInsert (initialGame food) [0, 1, 0]) ⟨320, 260⟩ = false ∧
    playStepHeadless (initialGame food) [0, 1, 0] draws =
      some (⟨0, false, 0⟩,
        { direction := Direction.DOWN
          head := ⟨320, 260⟩
          snake := [⟨320, 260⟩, ⟨320, 240⟩, ⟨300, 240⟩]
          score := 0
          food := food
          frame_iteration := 1 }) := by
  have hne : ¬((⟨320, 260⟩ : Point) = food) := fun e => h e.symm
  refine ⟨rfl, rfl, rfl, ?_⟩
  simp only [playStepHeadless, stepInsert, move, initialGame, newDirection, clockIndex,
    clockWise, movePoint, BLOCK_SIZE]
  norm_num [isCollision, outOfBounds, hne, BLOCK_SIZE]

/-- Witness for claim C4 at the concrete food (100, 100). -/
theorem claim_C4_witness :
    playStepHeadless (initialGame ⟨100, 100⟩) [0, 1, 0] [] =
      some (⟨0, false, 0⟩,
        { direction := Direction.DOWN
          head := ⟨320, 260⟩
          snake := [⟨320, 260⟩, ⟨320, 240⟩, ⟨300, 240⟩]
          score := 0
          food := ⟨100, 100⟩
          frame_iteration := 1 }) :=
  (claim_C4 ⟨100, 100⟩ [] (by decide)).2.2.2

/-- Claim C10: whenever the current direction is LEFT or RIGHT, entry 1 of
the encoded state (the danger-right flag) is 0, because all four disjuncts
of its definition in `get_state` are gated on the UP/DOWN direction flags. -/
theorem claim_C10 (g : GameState)
    (h : g.direction = Direction.LEFT ∨ g.direction = Direction.RIGHT) :
    (getState g).getD 1 0 = 0 := by
  rcases h with h | h <;> simp [getState, h, b2i]

/-- Witness for claim C10 at the initial game (direction RIGHT). -/
theorem claim_C10_witness :
    (getState (initialGame ⟨100, 100⟩)).getD 1 0 = 0 :=
  claim_C10 (initialGame ⟨100, 100⟩) (Or.inr rfl)

end SnakeRL

namespace SnakeRL

/-- Claim C3 counterexample: the claim says the drawn integer lies in the
half-open range [0, 200), but Python `random.randint(0, 200)` includes
both endpoints, so 200 is a possible draw and lies outside that range. -/
theorem claim_C3_counterexample :
    200 ∈ drawRange ∧ 200 ∉ specDrawRange := by
  decide

/-- Claim C3 (amended): for every state and episode count, `get_action`
sets epsilon = max(5, 80 − n_game), draws a uniform integer in the CLOSED
range [0, 200] (201 values), takes the random branch exactly when the draw
is below epsilon, and otherwise returns the one-hot at the argmax of the
approximator's forward pass on the state. -/
theorem claim_C3 (Q : List ℕ → List ℚ) (nGame : ℕ) (state : List ℕ)
    (r mv : ℕ) (hr : r ∈ drawRange) (hm : mv ∈ moveRange) :
    (getAction Q nGame state r mv).1 = max 5 (80 - (nGame : ℤ)) ∧
    ((r : ℤ) < max 5 (80 - (nGame : ℤ)) →
      (getAction Q nGame state r mv).2 = oneHot3 mv) ∧
    (¬ (r : ℤ) < max 5 (80 - (nGame : ℤ)) →
      (getAction Q nGame state r mv).2 = oneHot3 (argmaxList 0 (Q state))) := by
  refine ⟨?_, ?_, ?_⟩
  · by_cases hc : (r : ℤ) < max 5 (80 - (nGame : ℤ)) <;>
      simp [getAction, hc]
  · intro hc; simp [getAction, hc]
  · intro hc; simp [getAction, hc]

/-- Witness for claim C3 at episode count 0, draw 200 (the closed-range
endpoint, exploitation branch) and random move 1. -/
theorem claim_C3_witness :
    (getAction (fun _ => [1, 2, 3]) 0 [] 200 1).1 = max 5 (80 - (0 : ℤ)) ∧
    (((200 : ℕ) : ℤ) < max 5 (80 - (0 : ℤ)) →
      (getAction (fun _ => [1, 2, 3]) 0 [] 200 1).2 = oneHot3 1) ∧
    (¬ ((200 : ℕ) : ℤ) < max 5 (80 - (0 : ℤ)) →
      (getAction (fun _ => [1, 2, 3]) 0 [] 200 1).2 =
        oneHot3 (argmaxList 0 ((fun _ => [1, 2, 3]) ([] : List ℕ)))) :=
  claim_C3 (fun _ => [1, 2, 3]) 0 [] 200 1 (by decide) (by decide)

end SnakeRL

namespace SnakeRL

/-- Rejection property of `_place_food`: a successfully placed food is never
on the snake. -/
theorem placeFood_not_mem (snake : List Point) (draws : List (ℤ × ℤ))
    (f : Point) (h : placeFood snake draws = some f) : f ∉ snake := by
  induction draws with
  | nil => simp [placeFood] at h
  | cons d rest ih =>
      by_cases hc : (⟨d.1 * BLOCK_SIZE, d.2 * BLOCK_SIZE⟩ : Point) ∈ snake
      · exact ih (by simpa [placeFood, hc] using h)
      · have : f = ⟨d.1 * BLOCK_SIZE, d.2 * BLOCK_SIZE⟩ := by
          simpa [placeFood, hc] using h.symm
        subst this
        exact hc

/-- Claim C5: a non-terminal step whose new head equals the food increments
the score by 1, returns reward +10 with done False, places the new food on
a cell not occupied by the snake, and does not pop the tail, so the snake
grows by exactly one segment. -/
theorem claim_C5 (g : GameState) (action : List ℕ) (draws : List (ℤ × ℤ))
    (f : Point)
    (hc : (isCollision (stepInsert g action) (stepInsert g action).head ||
        decide ((stepInsert g action).frame_iteration >
          100 * (stepInsert g action).snake.length)) = false)
    (hf : (stepInsert g action).head = (stepInsert g action).food)
    (hp : placeFood (stepInsert g action).snake draws = some f) :
    playStepHeadless g action draws =
      some (⟨10, false, g.score + 1⟩,
        { stepInsert g action with score := g.score + 1, food := f }) ∧
    f ∉ (stepInsert g action).snake ∧
    (stepInsert g action).snake.length = g.snake.length + 1 := by
  refine ⟨?_, placeFood_not_mem _ _ _ hp, by simp [stepInsert, move]⟩
  have hsc : (stepInsert g action).score = g.score := rfl
  simp only [playStepHeadless, hp]
  rw [if_neg (by simp [hc]), if_pos hf]
  simp [hsc]

/-- Witness for claim C5: head (340,240) lands on the food at (340,240);
the re-placement draw (0,0) is free. -/
theorem claim_C5_witness :
    playStepHeadless (initialGame ⟨340, 240⟩) [1, 0, 0] [(0, 0)] =
      some (⟨10, false, 1⟩,
        { stepInsert (initialGame ⟨340, 240⟩) [1, 0, 0] with
            score := 1, food := ⟨0, 0⟩ }) ∧
    (⟨0, 0⟩ : Point) ∉ (stepInsert (initialGame ⟨340, 240⟩) [1, 0, 0]).snake ∧
    (stepInsert (initialGame ⟨340, 240⟩) [1, 0, 0]).snake.length =
      (initialGame ⟨340, 240⟩).snake.length + 1 :=
  claim_C5 (initialGame ⟨340, 240⟩) [1, 0, 0] [(0, 0)] ⟨0, 0⟩
    (by decide) (by decide) (by decide)

end SnakeRL

namespace SnakeRL

/-- Claim C6: a step is terminal exactly when the new head is out of
bounds, or lies on a non-head segment of the (post-insert) snake, or the
stall guard `frame_iteration > 100 * len(snake)` fires; a terminal step
returns the sentinel reward -1, done=True, and the pre-step score, leaving
the post-insert state otherwise untouched. -/
theorem claim_C6 (g : GameState) (action : List ℕ) (draws : List (ℤ × ℤ))
    (res : StepResult × GameState)
    (hres : playStepHeadless g action draws = some res) :
    (res.1.done = true ↔
      (outOfBounds (stepInsert g action).head = true ∨
       (stepInsert g action).head ∈ (stepInsert g action).snake.tail ∨
       (stepInsert g action).frame_iteration >
         100 * (stepInsert g action).snake.length)) ∧
    (res.1.done = true →
      res.1.reward = -1 ∧ res.1.score = g.score ∧ res.2 = stepInsert g action) := by
  have hsc : (stepInsert g action).score = g.score := rfl
  simp only [playStepHeadless] at hres
  split at hres
  case isTrue hcond =>
      obtain rfl : (⟨-1, true, (stepInsert g action).score⟩,
          stepInsert g action) = res := by simpa using hres
      simp only [isCollision, Bool.or_eq_true, decide_eq_true_iff,
        List.elem_iff] at hcond
      refine ⟨⟨fun _ => ?_, fun _ => rfl⟩, fun _ => ⟨rfl, hsc, rfl⟩⟩
      rcases hcond with (h | h) | h
      · exact Or.inl h
      · exact Or.inr (Or.inl h)
      · exact Or.inr (Or.inr h)
  case isFalse hcond =>
      simp only [isCollision, Bool.or_eq_true, decide_eq_true_iff,
        List.elem_iff] at hcond
      have hrhs : ¬(outOfBounds (stepInsert g action).head = true ∨
          (stepInsert g action).head ∈ (stepInsert g action).snake.tail ∨
          (stepInsert g action).frame_iteration >
            100 * (stepInsert g action).snake.length) := by
        intro h
        rcases h with h | h | h
        · exact hcond (Or.inl (Or.inl h))
        · exact hcond (Or.inl (Or.inr h))
        · exact hcond (Or.inr h)
      split at hres
      · split at hres
        · exact absurd hres (by simp)
        · obtain rfl : _ = res := Option.some.inj hres
          simp [hrhs]
      · obtain rfl : _ = res := Option.some.inj hres
        simp [hrhs]

/-- Witness for claim C6: the spec scenario of a head moving to x = -20,
left of the bound 0, from a terminal concrete game with score 3. -/
theorem claim_C6_witness :
    ((⟨-1, true, 3⟩, stepInsert
        { direction := Direction.LEFT, head := ⟨0, 240⟩,
          snake := [⟨0, 240⟩, ⟨20, 240⟩, ⟨40, 240⟩],
          score := 3, food := ⟨100, 100⟩, frame_iteration := 5 }
        [1, 0, 0]) : StepResult × GameState).1.done = true ∧
    outOfBounds (stepInsert
        { direction := Direction.LEFT, head := ⟨0, 240⟩,
          snake := [⟨0, 240⟩, ⟨20, 240⟩, ⟨40, 240⟩],
          score := 3, food := ⟨100, 100⟩, frame_iteration := 5 }
        [1, 0, 0]).head = true ∧
    (⟨-1, true, 3⟩ : StepResult).reward = -1 ∧
    (⟨-1, true, 3⟩ : StepResult).score = 3 := by
  have h := claim_C6
    { direction := Direction.LEFT, head := ⟨0, 240⟩,
      snake := [⟨0, 240⟩, ⟨20, 240⟩, ⟨40, 240⟩],
      score := 3, food := ⟨100, 100⟩, frame_iteration := 5 }
    [1, 0, 0] []
    (⟨-1, true, 3⟩, stepInsert
      { direction := Direction.LEFT, head := ⟨0, 240⟩,
        snake := [⟨0, 240⟩, ⟨20, 240⟩, ⟨40, 240⟩],
        score := 3, food := ⟨100, 100⟩, frame_iteration := 5 }
      [1, 0, 0])
    (by decide)
  exact ⟨rfl, by decide, (h.2 rfl).1, rfl⟩

end SnakeRL

namespace SnakeRL

/-- Claim C7: on a batch where every transition is terminal, every value
written by `train_step` is exactly that transition's reward — the target
tensor is the prediction with, in each row, the written column set to the
row's reward, with no `gamma * max(forward(next_state))` term. -/
theorem claim_C7 (Q : List ℕ → List ℚ) (gamma : ℚ)
    (states actions : List (List ℕ)) (rewards : List ℚ)
    (nextStates : List (List ℕ)) (dones : List Bool)
    (hlen : dones.length = states.length)
    (hall : ∀ d ∈ dones, d = true) :
    trainStepTargets Q gamma states actions rewards nextStates dones =
      (states.map Q).mapIdx (fun idx row =>
        row.set (argmaxList 0 actions.flatten) (rewards.getD idx 0)) := by
  unfold trainStepTargets
  apply List.ext_get (by simp)
  intro n h1 h2
  rw [List.get_mapIdx, List.get_mapIdx]
  · have hn : n < dones.length := by
      simpa [hlen] using h2
    have hd : dones.getD n false = true := by
      rw [List.getD_eq_getElem dones false hn]
      exact hall _ (List.getElem_mem hn)
    rw [hd]
    simp [qNew]
  · simpa using h2
  · simpa using h1

/-- Witness for claim C7 at a one-transition terminal batch. -/
theorem claim_C7_witness :
    trainStepTargets (fun _ => [0, 0, 0]) (9 / 10)
        [List.replicate 11 0] [[0, 1, 0]] [5] [List.replicate 11 0] [true]
      = ([List.replicate 11 0].map (fun _ => ([0, 0, 0] : List ℚ))).mapIdx
          (fun idx row =>
            row.set (argmaxList 0 ([[0, 1, 0]] : List (List ℕ)).flatten)
              (([5] : List ℚ).getD idx 0)) :=
  claim_C7 (fun _ => [0, 0, 0]) (9 / 10) [List.replicate 11 0] [[0, 1, 0]]
    [5] [List.replicate 11 0] [true] rfl (by decide)

end SnakeRL

namespace SnakeRL

/-- One bounded-deque append keeps at most `C` elements. -/
theorem pushDeque_length {α : Type} (C : ℕ) (buf : List α) (x : α) :
    (pushDeque C buf x).length = min (buf.length + 1) C := by
  simp [pushDeque]
  omega

/-- Folding bounded-deque appends over a list keeps the suffix of the
pushed stream: the result is the concatenation with everything before the
last `C` elements dropped. -/
theorem foldl_pushDeque_eq {α : Type} (C : ℕ) (xs : List α) :
    ∀ buf : List α, buf.length ≤ C →
      xs.foldl (pushDeque C) buf = (buf ++ xs).drop (buf.length + xs.length - C) := by
  induction xs with
  | nil =>
      intro buf h
      simp [Nat.sub_eq_zero_of_le h]
  | cons x rest ih =>
      intro buf h
      have hle : (pushDeque C buf x).length ≤ C := by
        rw [pushDeque_length]
        exact min_le_right _ _
      rw [List.foldl_cons, ih _ hle]
      rcases Nat.lt_or_ge buf.length C with hlt | hge
      · have h0 : buf.length + 1 - C = 0 := by omega
        have hdropz : pushDeque C buf x = buf ++ [x] := by
          simp [pushDeque, h0]
        rw [hdropz]
        have harith : (buf ++ [x]).length + rest.length - C =
            buf.length + (x :: rest).length - C := by
          simp
          omega
        have happ : (buf ++ [x]) ++ rest = buf ++ x :: rest := by simp
        rw [harith, happ]
      · have hbc : buf.length = C := le_antisymm h hge
        have h1 : buf.length + 1 - C = 1 := by omega
        have hdrop1 : pushDeque C buf x = (buf ++ [x]).drop 1 := by
          simp [pushDeque, h1]
        rw [hdrop1]
        have hl1 : ((buf ++ [x]).drop 1).length = C := by simp [hbc]
        have happ : ((buf ++ [x]) ++ rest).drop 1 = (buf ++ [x]).drop 1 ++ rest :=
          List.drop_append_of_le_length (by simp)
        rw [hl1, ← happ, List.drop_drop]
        have he : (buf ++ [x]) ++ rest = buf ++ x :: rest := by simp
        rw [he]
        congr 1
        simp only [hbc, List.length_cons]
        omega

end SnakeRL

namespace SnakeRL

/-- Claim C8: the replay memory (`deque(maxlen=C)` fed by `remember`)
never exceeds its capacity; after C+1 appends into an empty memory the
buffer holds exactly the later C transitions in insertion order, and the
first-pushed transition is gone whenever it differs from the later ones. -/
theorem claim_C8 {α : Type} (C : ℕ) (x0 : α) (xs : List α)
    (hlen : xs.length = C) :
    (∀ ys : List α, (pushAll C ys).length ≤ C) ∧
    pushAll C (x0 :: xs) = xs ∧
    (x0 ∉ xs → x0 ∉ pushAll C (x0 :: xs)) := by
  have hbound : ∀ ys : List α, (pushAll C ys).length ≤ C := by
    intro ys
    rw [pushAll, foldl_pushDeque_eq C ys [] (by simp)]
    simp
    omega
  have hfifo : pushAll C (x0 :: xs) = xs := by
    rw [pushAll, foldl_pushDeque_eq C (x0 :: xs) [] (by simp)]
    simp [hlen]
  refine ⟨hbound, hfifo, fun hx => ?_⟩
  rw [hfifo]
  exact hx

/-- Witness for claim C8 with capacity 2 and pushes 1, 2, 3. -/
theorem claim_C8_witness :
    (∀ ys : List ℕ, (pushAll 2 ys).length ≤ 2) ∧
    pushAll 2 [1, 2, 3] = [2, 3] ∧
    ((1 : ℕ) ∉ [2, 3] → (1 : ℕ) ∉ pushAll 2 [1, 2, 3]) :=
  claim_C8 2 1 [2, 3] rfl

end SnakeRL

namespace SnakeRL

/-- Selecting valid positions out of a list yields one element per
position. -/
theorem filterMap_getQ_length {α : Type} (mem : List α) :
    ∀ pick : List ℕ, (∀ i ∈ pick, i < mem.length) →
      (pick.filterMap (fun i => mem[i]?)).length = pick.length := by
  intro pick
  induction pick with
  | nil => simp
  | cons i rest ih =>
      intro hlt
      have hi : i < mem.length := hlt i (by simp)
      rw [List.filterMap_cons]
      simp only [List.getElem?_eq_getElem hi, List.length_cons]
      rw [ih (fun j hj => hlt j (List.mem_cons_of_mem _ hj))]

/-- Selecting distinct positions of a duplicate-free list yields a
duplicate-free result. -/
theorem filterMap_getQ_nodup {α : Type} (mem : List α) (hmem : mem.Nodup) :
    ∀ pick : List ℕ, pick.Nodup → (∀ i ∈ pick, i < mem.length) →
      (pick.filterMap (fun i => mem[i]?)).Nodup := by
  intro pick
  induction pick with
  | nil => simp
  | cons i rest ih =>
      intro hnd hlt
      have hi : i < mem.length := hlt i (by simp)
      obtain ⟨hnotin, hndr⟩ := List.nodup_cons.mp hnd
      rw [List.filterMap_cons]
      simp only [List.getElem?_eq_getElem hi]
      refine List.nodup_cons.mpr ⟨?_, ih hndr (fun j hj => hlt j (List.mem_cons_of_mem _ hj))⟩
      intro hmemi
      rcases List.mem_filterMap.mp hmemi with ⟨j, hjmem, hjeq⟩
      have hj : j < mem.length := hlt j (List.mem_cons_of_mem _ hjmem)
      simp only [List.getElem?_eq_getElem hj] at hjeq
      have hget : mem.get ⟨j, hj⟩ = mem.get ⟨i, hi⟩ := Option.some.inj hjeq
      have hij : (⟨j, hj⟩ : Fin mem.length) = ⟨i, hi⟩ :=
        (List.Nodup.get_inj_iff hmem).mp hget
      have : j = i := congrArg Fin.val hij
      exact hnotin (this ▸ hjmem)

/-- Claim C9: the long-memory mini-sample never fails: with the memory not
larger than the batch size the whole memory is used unchanged (insertion
order preserved); otherwise the sample has exactly batch-size entries, all
taken from the memory, at pairwise distinct positions (no replacement —
duplicate-free whenever the memory is). -/
theorem claim_C9 {α : Type} (batchSize : ℕ) (mem : List α) (pick : List ℕ) :
    (mem.length ≤ batchSize → trainLongSample batchSize mem pick = mem) ∧
    (batchSize < mem.length → pick.length = batchSize →
      (∀ i ∈ pick, i < mem.length) → pick.Nodup →
      (trainLongSample batchSize mem pick).length = batchSize ∧
      (∀ x ∈ trainLongSample batchSize mem pick, x ∈ mem) ∧
      (mem.Nodup → (trainLongSample batchSize mem pick).Nodup)) := by
  constructor
  · intro h
    simp [trainLongSample, Nat.not_lt.mpr h]
  · intro hgt hpl hlt hnd
    have hcase : trainLongSample batchSize mem pick =
        pick.filterMap (fun i => mem[i]?) := by
      simp [trainLongSample, hgt]
    rw [hcase]
    refine ⟨by rw [filterMap_getQ_length mem pick hlt]; exact hpl, ?_, ?_⟩
    · intro x hx
      rcases List.mem_filterMap.mp hx with ⟨j, _, hjeq⟩
      exact List.getElem?_mem hjeq
    · intro hmem
      exact filterMap_getQ_nodup mem hmem pick hnd hlt

/-- Witness for claim C9: a three-element memory with batch size 2 and the
picked positions [2, 0]. -/
theorem claim_C9_witness :
    (([10, 20, 30] : List ℕ).length ≤ 2 → trainLongSample 2 [10, 20, 30] [2, 0] = [10, 20, 30]) ∧
    (2 < ([10, 20, 30] : List ℕ).length → ([2, 0] : List ℕ).length = 2 →
      (∀ i ∈ ([2, 0] : List ℕ), i < ([10, 20, 30] : List ℕ).length) → ([2, 0] : List ℕ).Nodup →
      (trainLongSample 2 [10, 20, 30] [2, 0]).length = 2 ∧
      (∀ x ∈ trainLongSample 2 [10, 20, 30] [2, 0], x ∈ ([10, 20, 30] : List ℕ)) ∧
      (([10, 20, 30] : List ℕ).Nodup → (trainLongSample 2 [10, 20, 30] [2, 0]).Nodup)) :=
  claim_C9 2 [10, 20, 30] [2, 0]

end SnakeRL
